import Mathlib

/-!
# Verification of the skill-engine specification against the repository

Shallow embedding of the relevant parts of `Crypto-Goatz/rocket-agency-dashboard`:
the role-permission check (`lib/auth/ghl-auth.ts`), the documented risk
classification (`SKILLS-IMPORT-EXPORT.md`), the MCP registry (`lib/mcp/registry`),
the direct MCP tool-execution route, the password hashing pair, and — where the
skill-engine source files (`lib/skills/*`) are not part of this snapshot — models
built from the specification's words (each marked `Modelled from the spec:`).

The file is organised as definitions first, then lemmas and the theorems that
settle the specification's claims.
-/

namespace RocketDash

/-! ## Permission check from `src/lib/auth/ghl-auth.ts` (`hasPermission`) -/

/-- `permission.split(':')[0]` — the prefix of the pattern before its first `:`
(the whole string when there is no `:`). -/
def category (permission : String) : String :=
  String.mk (permission.data.takeWhile (fun c => c ≠ ':'))

/-- `hasPermission` from `src/lib/auth/ghl-auth.ts` lines 479–491:
`admin:*` wildcard check, then exact match, then `category:*` wildcard. -/
def hasPermission (granted : List String) (permission : String) : Bool :=
  if granted.contains "admin:*" then true
  else if granted.contains permission then true
  else if granted.contains (category permission ++ ":*") then true
  else false

/-! ## Risk classification from `src/SKILLS-IMPORT-EXPORT.md` (`calculateRiskLevel`) -/

inductive RiskLevel
  | low
  | medium
  | high
  | critical
deriving DecidableEq, Repr

/-- The fixed `highRisk` list of `calculateRiskLevel`. -/
def highRisk : List String := ["database:delete", "files:delete", "exec:server", "env:write"]

/-- The fixed `criticalRisk` list of `calculateRiskLevel`. -/
def criticalRisk : List String := ["*"]

/-- JavaScript `sub ⊆ s` substring test (`String.prototype.includes`), over char lists. -/
def listIncludes (sub : List Char) : List Char → Bool
  | [] => sub.isEmpty
  | c :: cs => sub.isPrefixOf (c :: cs) || listIncludes sub cs

/-- `s.includes(sub)` for strings. -/
def strIncludes (s sub : String) : Bool := listIncludes sub.data s.data

/-- `calculateRiskLevel` from `src/SKILLS-IMPORT-EXPORT.md` (Risk Assessment):
critical on the global wildcard, else high on the fixed high-risk patterns,
else medium when any pattern contains the substring `write`, else low. -/
def calculateRiskLevel (permissions : List String) : RiskLevel :=
  if permissions.any (fun p => criticalRisk.contains p) then .critical
  else if permissions.any (fun p => highRisk.contains p) then .high
  else if permissions.any (fun p => strIncludes p "write") then .medium
  else .low

/-! ## JSON-like values and association-list maps

The engine's `config`, `variables`, `params` and audit-log state are dynamic
JSON values in the source; `Map`/plain-object state is embedded as an
association list keyed by strings. -/

/-- A JSON-like dynamic value (the duck-typed data the TS code passes around). -/
inductive JValue
  | null
  | bool (b : Bool)
  | num (n : Int)
  | str (s : String)
  | arr (xs : List JValue)
  | obj (fields : List (String × JValue))
deriving BEq, Repr, Inhabited

/-- First-match association-list lookup (JS `Map.get` / object key access). -/
def mapFind {α : Type} (m : List (String × α)) (k : String) : Option α :=
  match m.find? (fun kv => kv.1 == k) with
  | some kv => some kv.2
  | none => none

/-- `Map.set` / object key assignment: overwrite in place, else append. -/
def mapSet {α : Type} (m : List (String × α)) (k : String) (v : α) :
    List (String × α) :=
  match m with
  | [] => [(k, v)]
  | (k', v') :: rest =>
    if k' == k then (k, v) :: rest else (k', v') :: mapSet rest k v

/-- `Map.delete`: remove every binding of the key. -/
def mapErase {α : Type} (m : List (String × α)) (k : String) : List (String × α) :=
  m.filter (fun kv => kv.1 != k)

/-- JS object spread `{...base, ...extra}`: keys of `extra` override `base`. -/
def mapMerge {α : Type} (base extra : List (String × α)) : List (String × α) :=
  base.filter (fun kv => (mapFind extra kv.1).isNone) ++ extra

/-! ## MCP registry from `src/unnamed` (`lib/mcp/registry`, class `MCPRegistry`) -/

/-- One tool exposed by an MCP server (`MCPTool`). -/
structure MCPTool where
  name : String
  description : String
  requiresAuth : Bool
deriving BEq, Repr

/-- `MCPServerConfig` (connection/auth detail kept as plain strings). -/
structure MCPServerConfig where
  id : String
  slug : String
  name : String
  description : String
  cat : String
  endpoint : String
  connectionType : String
  authType : String
  tools : List MCPTool
  isBuiltIn : Bool
  isEnabled : Bool
deriving BEq, Repr

/-- The registry's in-memory state: the `servers : Map<string, MCPServerConfig>`. -/
structure RegistryState where
  servers : List (String × MCPServerConfig)
deriving BEq, Repr

/-- A database side effect issued by the registry (Supabase calls). -/
inductive DbOp
  | deleteServer (slug : String)
  | upsertServer (slug : String)
deriving BEq, Repr

/-- `MCPRegistry.unregisterServer`: throws when the server at `slug` is
built-in; otherwise issues the database delete and removes the map entry.
When the slug is not registered, `server?.isBuiltIn` is undefined (falsy),
so the delete path runs. -/
def unregisterServer (st : RegistryState) (slug : String) :
    Except String (RegistryState × List DbOp) :=
  match mapFind st.servers slug with
  | some server =>
    if server.isBuiltIn then
      .error "Cannot unregister built-in server"
    else
      .ok (⟨mapErase st.servers slug⟩, [.deleteServer slug])
  | none => .ok (⟨mapErase st.servers slug⟩, [.deleteServer slug])

/-- `MCPRegistry.registerServer`: upsert to the database, then set the map
entry with `isBuiltIn := false`. -/
def registerServer (st : RegistryState) (config : MCPServerConfig) :
    RegistryState × List DbOp :=
  (⟨mapSet st.servers config.slug { config with isBuiltIn := false }⟩,
    [.upsertServer config.slug])

/-- The built-in GoHighLevel server entry (first element of
`BUILTIN_MCP_SERVERS`, tools elided). -/
def ghlBuiltinServer : MCPServerConfig :=
  { id := "ghl", slug := "gohighlevel", name := "GoHighLevel"
    description := "Complete CRM - contacts, blogs, workflows, Voice AI, and more"
    cat := "CRM & Sales", endpoint := "internal://ghl", connectionType := "http"
    authType := "pit", tools := [], isBuiltIn := true, isEnabled := true }

/-! ## Manifest and execution-context data model

Mirrors the `Action` / manifest shapes documented in
`src/SKILLS-IMPORT-EXPORT.md` and the `ExecutionContext` literal built in
`src/app/api/mcp/[server]/[tool]/route.ts`. -/

inductive ErrorPolicy
  | stop
  | contin
  | retry
deriving DecidableEq, Repr

/-- One declared action (`Action` in the manifest format): id, dispatch type,
optional `when.condition` template, `dependsOn`, error policy, retry counts,
and `outputTo`. Type-specific config is the `params` template map. -/
structure ActionSpec where
  id : String
  type : String
  condition : Option String := none
  dependsOn : List String := []
  onError : ErrorPolicy := .stop
  retryCount : Nat := 0
  retryDelay : Nat := 0
  outputTo : Option String := none
  params : List (String × String) := []
deriving DecidableEq, Repr

/-- The skill manifest: identity, granted permission patterns, onboarding
field ids, and the ordered action list. -/
structure SkillManifest where
  name : String
  slug : String
  version : String
  permissions : List String
  onboarding : List String := []
  actions : List ActionSpec := []
deriving BEq, Repr

/-- The per-run `ExecutionContext` (fields as in the route's literal; the
source's `variables` field is named `vars` here because `variables` is a
reserved word in the proof language). -/
structure ExecutionContext where
  installationId : String
  userId : String
  skillId : String
  skillSlug : String
  config : List (String × JValue)
  environment : List (String × String)
  permissions : List String
  manifest : SkillManifest
  vars : List (String × JValue)
  input : List (String × JValue)
  onboardingData : List (String × JValue)
deriving BEq, Repr

/-! ## Direct MCP tool-execution route
(`src/app/api/mcp/[server]/[tool]/route.ts`) -/

/-- `createMinimalContext` from the route: the blanket `mcp:*` grant, an
environment merged from `process.env` and the request's overrides, and a
synthetic `direct-mcp-call` manifest (which has no actions). -/
def createMinimalContext (processEnv : List (String × String)) (userId : String)
    (environment : List (String × String)) : ExecutionContext :=
  { installationId := "api-call"
    userId := userId
    skillId := "direct-mcp-call"
    skillSlug := "direct-mcp-call"
    config := []
    environment := mapMerge processEnv environment
    permissions := ["mcp:*"]
    manifest :=
      { name := "Direct MCP Call"
        slug := "direct-mcp-call"
        version := "1.0.0"
        permissions := ["mcp:*"]
        onboarding := [] }
    vars := []
    input := []
    onboardingData := [] }

/-- The execution context the `POST` handler passes to `mcpHandler`: the route
hard-codes `userId = "api-user"` and forwards the request's `environment`. -/
def POSTContext (processEnv environment : List (String × String)) :
    ExecutionContext :=
  createMinimalContext processEnv "api-user" environment

/-! ## Password hashing from `src/lib/auth/ghl-auth.ts`

`crypto.pbkdf2Sync(password, salt, 100000, 64, 'sha512')` is an external,
deterministic library function and is embedded as the function parameter
`pbkdf2`; `crypto.randomBytes(16).toString('hex')` is the `randomSalt`
parameter. -/

structure HashResult where
  hash : String
  salt : String
deriving BEq, DecidableEq, Repr

/-- `hashPassword(password, salt?)`: the source computes
`salt || crypto.randomBytes(16).toString('hex')` — JS falsiness, so an absent
**or empty-string** salt draws the fresh random salt; otherwise the given
salt is used. Returns the derived hash with the salt actually used. -/
def hashPassword (pbkdf2 : String → String → String) (randomSalt : String)
    (password : String) (salt : Option String) : HashResult :=
  let actualSalt :=
    match salt with
    | some s => if s = "" then randomSalt else s
    | none => randomSalt
  { hash := pbkdf2 password actualSalt, salt := actualSalt }

/-- `verifyPassword(password, storedHash, salt)`: re-hash with the stored salt
and compare. The re-hash goes through `hashPassword`, so an empty stored salt
draws the fresh random salt `randomSalt`, exactly as the source does. -/
def verifyPassword (pbkdf2 : String → String → String) (randomSalt : String)
    (password storedHash salt : String) : Bool :=
  (hashPassword pbkdf2 randomSalt password (some salt)).hash == storedHash

/-! ## Audit log and rollback

Modelled from the spec: `lib/skills/rollback.ts` and `lib/skills/logger.ts`
are not part of this source snapshot — only the `skill_logs` schema
(`src/supabase/migrations/001_skills_system.sql`) and the README usage of
`revertLog`/`getRevertibleLogs` are. §4.7: `revert(logId)` loads the entry,
fails `NotReversible` when `reversible = false`, fails `AlreadyReverted` when
`reverted = true`, otherwise runs the inverse action against `beforeState`,
marks `reverted := true` and stamps `revertedAt`. The handler-side inverse is
the function parameter `inverse`; a failing inverse is returned as a typed
result (§7), not an exception. -/

/-- One `skill_logs` row (schema of `001_skills_system.sql`). -/
structure AuditLogEntry where
  action : String
  target : String
  beforeState : Option JValue
  afterState : Option JValue
  metadata : List (String × JValue)
  reversible : Bool
  reverted : Bool
  revertedAt : Option Nat
deriving BEq, Repr

inductive RevertResult
  | notFound
  | notReversible
  | alreadyReverted
  | inverseFailed
  | reverted
deriving BEq, DecidableEq, Repr

/-- Modelled from the spec: `revert(logId) → RevertResult` over a store of log
entries keyed by id; `now` is the timestamp stamped into `revertedAt`. -/
def revertLog (inverse : AuditLogEntry → Bool) (now : Nat)
    (store : List (String × AuditLogEntry)) (logId : String) :
    RevertResult × List (String × AuditLogEntry) :=
  match mapFind store logId with
  | none => (.notFound, store)
  | some e =>
    if e.reversible = false then (.notReversible, store)
    else if e.reverted = true then (.alreadyReverted, store)
    else if inverse e then
      (.reverted, mapSet store logId { e with reverted := true, revertedAt := some now })
    else (.inverseFailed, store)

/-- `getRevertibleLogs`: entries with `reversible = true` and
`reverted = false` (most-recent-first ordering is the store's order). -/
def getRevertibleLogs (store : List (String × AuditLogEntry)) :
    List (String × AuditLogEntry) :=
  store.filter (fun kv => kv.2.reversible && !kv.2.reverted)

/-- A concrete non-reversible log entry, used as a test vector. -/
def demoIrreversibleEntry : AuditLogEntry :=
  { action := "mcp:call", target := "contact/42", beforeState := none
    afterState := some (.str "created"), metadata := []
    reversible := false, reverted := false, revertedAt := none }

/-- A concrete already-reverted log entry, used as a test vector. -/
def demoRevertedEntry : AuditLogEntry :=
  { action := "mcp:call", target := "contact/43", beforeState := some (.str "old")
    afterState := some (.str "new"), metadata := []
    reversible := true, reverted := true, revertedAt := some 3 }

/-! ## Template resolver

Modelled from the spec: the resolver lives in the missing `lib/skills`
runtime. §4.3: templates are strings holding `{{dotted.path}}` expressions;
the path resolves against `variables`, then `config`, then `input`, then
`onboardingData`, first-segment match wins; a template that is exactly one
expression keeps the resolved value's original type, a mixed template
string-interpolates every expression; an unknown path resolves to an
empty/undefined value. -/

/-- The opening brace character (written via its code point). -/
def openBrace : Char := '\x7b'

/-- The closing brace character (written via its code point). -/
def closeBrace : Char := '\x7d'

/-- Split a char list at the first doubled marker `bb`: the chars before it
and, when found, the remainder after it. -/
def splitAtMarker (b : Char) : List Char → List Char × Option (List Char)
  | [] => ([], none)
  | [c] => ([c], none)
  | c₁ :: c₂ :: rest =>
    if c₁ = b ∧ c₂ = b then ([], some rest)
    else
      let p := splitAtMarker b (c₂ :: rest)
      (c₁ :: p.1, p.2)

/-- One piece of a scanned template: literal text or a `{{path}}` expression. -/
inductive Segment
  | lit (s : List Char)
  | expr (path : List Char)
deriving BEq, Repr

/-- Scan a template into segments. An opening `{{` without a matching `}}`
leaves the whole remaining text literal. The fuel is bounded by the text
length. -/
def scanAux : Nat → List Char → List Segment
  | 0, cs => if cs.isEmpty then [] else [.lit cs]
  | fuel + 1, cs =>
    match splitAtMarker openBrace cs with
    | (pre, none) => if pre.isEmpty then [] else [.lit pre]
    | (pre, some rest) =>
      match splitAtMarker closeBrace rest with
      | (_, none) => if cs.isEmpty then [] else [.lit cs]
      | (inner, some tail) =>
        (if pre.isEmpty then [] else [.lit pre]) ++ .expr inner :: scanAux fuel tail

/-- Scan a template string into its literal/expression segments. -/
def scanTemplate (t : String) : List Segment := scanAux (t.data.length + 1) t.data

/-- Split a dotted path on `.` (JS `path.split('.')`, always nonempty). -/
def splitOnDot : List Char → List (List Char)
  | [] => [[]]
  | c :: cs =>
    let r := splitOnDot cs
    if c = '.' then [] :: r
    else
      match r with
      | [] => [[c]]
      | seg :: rest => (c :: seg) :: rest

/-- Descend into object fields along the remaining path segments. -/
def lookupIn : JValue → List (List Char) → Option JValue
  | v, [] => some v
  | .obj fields, seg :: rest =>
    match mapFind fields (String.mk seg) with
    | some v => lookupIn v rest
    | none => none
  | _, _ :: _ => none

/-- The data a template resolves against (§4.3 lookup order). -/
structure Scope where
  vars : List (String × JValue)
  config : List (String × JValue)
  input : List (String × JValue)
  onboardingData : List (String × JValue)
deriving Repr

/-- Resolve a dotted path: the first segment picks the first of
`variables`/`config`/`input`/`onboardingData` that contains it (no merging
across scopes), then the rest of the path descends into that value. -/
def lookupScope (sc : Scope) (p : List Char) : Option JValue :=
  match splitOnDot p with
  | [] => none
  | root :: rest =>
    let rootS := String.mk root
    match mapFind sc.vars rootS with
    | some v => lookupIn v rest
    | none =>
      match mapFind sc.config rootS with
      | some v => lookupIn v rest
      | none =>
        match mapFind sc.input rootS with
        | some v => lookupIn v rest
        | none =>
          match mapFind sc.onboardingData rootS with
          | some v => lookupIn v rest
          | none => none

/-- String interpolation of a resolved value; an unknown (undefined) path
interpolates to the empty string. Aggregate values use fixed placeholders
(the claims do not depend on their text). -/
def interpolate : Option JValue → String
  | none => ""
  | some .null => ""
  | some (.bool b) => if b then "true" else "false"
  | some (.num n) => toString n
  | some (.str s) => s
  | some (.arr _) => "[array]"
  | some (.obj _) => "[object Object]"

/-- Interpolate one segment. -/
def segInterp (sc : Scope) : Segment → String
  | .lit s => String.mk s
  | .expr p => interpolate (lookupScope sc p)

/-- Modelled from the spec: `resolve(template, scope)`. A template that is
exactly one expression returns the looked-up value itself (original type
preserved, undefined becomes `null`); any other template returns the string
joining the segments with each expression interpolated. -/
def resolveTemplate (sc : Scope) (t : String) : JValue :=
  match scanTemplate t with
  | [Segment.expr p] => (lookupScope sc p).getD .null
  | segs => .str (String.join (segs.map (segInterp sc)))

/-- §4.3 truthiness: empty string, `"false"`, `0` and null/undefined are
falsy; everything else is truthy. -/
def truthy : Option JValue → Bool
  | none => false
  | some .null => false
  | some (.bool b) => b
  | some (.num n) => !(n == 0)
  | some (.str s) => !(s == "" || s == "false")
  | some (.arr _) => true
  | some (.obj _) => true

/-- A concrete scope whose `variables` carry a boolean, used as a test vector. -/
def demoScope : Scope :=
  { vars := [("flag", .bool true)], config := [("workflowId", .str "wf-1")]
    input := [], onboardingData := [] }

/-! ## Manifest validation and dependency-aware scheduling

Modelled from the spec: the validator (`lib/skills/parser.ts`) and the
scheduler/engine (`lib/skills/ignition/engine.ts`, `runtime.ts`) are not part
of this source snapshot. §4.1: `validate` accumulates errors — slug grammar,
three-part version, no dangling `dependsOn`, acyclic dependency graph,
permission-pattern grammar. §4.5: the scheduler runs the actions in a
topological order of `dependsOn` with ties broken by declaration order; the
order is computed by repeatedly taking the first declared action whose
dependencies (restricted to existing action ids) are all already ordered —
a manifest on which this gets stuck has a dependency cycle, and the stuck
remainder names the cycle. -/

/-- The declared action ids, in declaration order. -/
def actionIds (actions : List ActionSpec) : List String :=
  actions.map (fun a => a.id)

/-- An action is ready once every dependency that names an existing action id
is already ordered. -/
def readyAction (ids done : List String) (a : ActionSpec) : Bool :=
  a.dependsOn.all (fun d => done.contains d || !(ids.contains d))

/-- Pick the first ready action (declaration order tie-break), returning it
and the rest. -/
def pickReady (ids done : List String) :
    List ActionSpec → Option (ActionSpec × List ActionSpec)
  | [] => none
  | a :: rest =>
    if readyAction ids done a then some (a, rest)
    else
      match pickReady ids done rest with
      | some (b, rest') => some (b, a :: rest')
      | none => none

/-- Kahn's algorithm (fuelled): the topological order computed so far and the
actions left stuck when the graph is cyclic. -/
def kahnAux (ids : List String) : Nat → List String → List ActionSpec →
    List ActionSpec × List ActionSpec
  | 0, _, remaining => ([], remaining)
  | fuel + 1, done, remaining =>
    match pickReady ids done remaining with
    | none => ([], remaining)
    | some (a, rest) =>
      let r := kahnAux ids fuel (done ++ [a.id]) rest
      (a :: r.1, r.2)

/-- The scheduler's execution order and the stuck remainder (empty iff the
dependency graph is acyclic over the declared ids). -/
def topoOrder (actions : List ActionSpec) : List ActionSpec × List ActionSpec :=
  kahnAux (actionIds actions) actions.length [] actions

inductive ValidationError
  | emptySlug
  | invalidSlug
  | invalidVersion
  | invalidPermission (p : String)
  | unknownDependency (actionId dep : String)
  | cyclicDependency (ids : List String)
deriving BEq, DecidableEq, Repr

/-- Slug characters: `[a-z0-9-]`. -/
def slugCharOk (c : Char) : Bool :=
  (('a' ≤ c && c ≤ 'z') || ('0' ≤ c && c ≤ '9') || c = '-')

/-- A nonempty run of decimal digits. -/
def isDigits (s : List Char) : Bool :=
  !s.isEmpty && s.all (fun c => '0' ≤ c && c ≤ '9')

/-- Three dot-separated non-negative integers. -/
def validVersion (v : String) : Bool :=
  match splitOnDot v.data with
  | [a, b, c] => isDigits a && isDigits b && isDigits c
  | _ => false

/-- The `PermissionPattern` grammar: `*`, or `category:specific` /
`category:*` with nonempty category and specific part. -/
def validPermissionPattern (p : String) : Bool :=
  p == "*" ||
    (let c := p.data.takeWhile (fun ch => ch ≠ ':')
     let rest := p.data.dropWhile (fun ch => ch ≠ ':')
     !c.isEmpty && decide (rest.length ≥ 2))

/-- Modelled from the spec: `validate(raw)` — accumulate all errors, never
short-circuit (§4.1). The cyclic-dependency error names the ids of the
actions stuck in the cycle-closed remainder. -/
def validate (m : SkillManifest) : List ValidationError :=
  (if m.slug.isEmpty then [ValidationError.emptySlug]
   else if m.slug.data.all slugCharOk then [] else [ValidationError.invalidSlug]) ++
  (if validVersion m.version then [] else [ValidationError.invalidVersion]) ++
  (m.permissions.filterMap (fun p =>
    if validPermissionPattern p then none
    else some (ValidationError.invalidPermission p))) ++
  (m.actions.flatMap (fun a =>
    a.dependsOn.filterMap (fun d =>
      if (actionIds m.actions).contains d then none
      else some (ValidationError.unknownDependency a.id d)))) ++
  (let r := topoOrder m.actions
   if r.2.isEmpty then [] else [ValidationError.cyclicDependency (actionIds r.2)])

/-- `depEdge actions i d`: the action with id `i` declares `d` in `dependsOn`. -/
def depEdge (actions : List ActionSpec) (i d : String) : Bool :=
  actions.any (fun a => a.id == i && a.dependsOn.contains d)

/-- The chain of edges along a candidate cycle, closing back to `first`. -/
def cycleChain (actions : List ActionSpec) (first : String) : List String → Bool
  | [] => false
  | [i] => depEdge actions i first
  | i :: j :: rest => depEdge actions i j && cycleChain actions first (j :: rest)

/-- `c` is a nonempty dependency cycle: each element depends on the next and
the last depends on the first. -/
def isDepCycle (actions : List ActionSpec) (c : List String) : Bool :=
  match c with
  | [] => false
  | i :: _ => cycleChain actions i c

/-! ## The runtime: action dispatch over the scheduled order

Modelled from the spec (§4.4, §4.5): per action — (a) resolve
`when.condition` and skip when falsy; (b) require every dependency completed
successfully unless the action's own `onError` is `continue`; (c/d) check the
capability implied by the action's type against the granted permissions
(engine rule §4.2: exact, global `*`, or `category:*`) and terminal-fail
without invoking the handler on denial; (e) invoke the handler; (f) bind the
handler's `data` into `variables[outputTo]`. Handler outputs are a function
of the action id (fixed per run), so an exhausted `retry` is a terminal
failure with the same result; `onError = stop` aborts the remainder
(`upstream-stop` skips). -/

structure ActionResult where
  success : Bool
  data : JValue := .null
  error : Option String := none
deriving BEq, Repr

inductive SkipReason
  | conditionFalse
  | dependencyNotMet
  | upstreamStop
deriving BEq, DecidableEq, Repr

inductive ActionStatus
  | completed
  | failed
  | skipped (reason : SkipReason)
deriving BEq, DecidableEq, Repr

/-- Mutable per-run state: the variable store, each dispatched action's
terminal status, and whether a `stop` failure aborted the remainder. -/
structure RunState where
  vars : List (String × JValue)
  statuses : List (String × ActionStatus)
  aborted : Bool
deriving Repr

/-- The per-action trace record: the status reached and the variable store
the action observed at dispatch. -/
structure StepRecord where
  id : String
  status : ActionStatus
  varsBefore : List (String × JValue)
deriving Repr

/-- The read-only parts of the run context. -/
structure StaticCtx where
  config : List (String × JValue)
  input : List (String × JValue)
  onboardingData : List (String × JValue)
  permissions : List String
deriving Repr

/-- The template scope of a run state (§4.3 lookup order). -/
def scopeOf (ctx : StaticCtx) (vars : List (String × JValue)) : Scope :=
  { vars := vars, config := ctx.config, input := ctx.input
    onboardingData := ctx.onboardingData }

/-- Engine permission rule (§4.2): exact match, global `*`, or `category:*`. -/
def isAllowedSpec (granted : List String) (required : String) : Bool :=
  granted.contains required || granted.contains "*" ||
    granted.contains (category required ++ ":*")

/-- Step (a): the action's `when.condition`, resolved against the current
scope and truthiness-tested (absent condition runs). -/
def condHolds (ctx : StaticCtx) (st : RunState) (a : ActionSpec) : Bool :=
  match a.condition with
  | none => true
  | some c => truthy (some (resolveTemplate (scopeOf ctx st.vars) c))

/-- Step (b): every declared dependency completed with success in this run. -/
def depsMet (st : RunState) (a : ActionSpec) : Bool :=
  a.dependsOn.all (fun d => decide (mapFind st.statuses d = some ActionStatus.completed))

/-- The new variable store after a successful handler call: bind the
handler's `data` under `outputTo` when set (spec step (f)). -/
def bindOutput (st : RunState) (a : ActionSpec) (r : ActionResult) :
    List (String × JValue) :=
  match a.outputTo with
  | some x => mapSet st.vars x r.data
  | none => st.vars

/-- Dispatch one action (spec steps (a)–(f); the capability implied by the
action's type is computed by `capOf`). -/
def runStep (capOf : ActionSpec → String) (hnd : String → ActionResult)
    (ctx : StaticCtx) (st : RunState) (a : ActionSpec) : RunState × StepRecord :=
  if st.aborted then
    ({ st with statuses := mapSet st.statuses a.id (.skipped .upstreamStop) },
     ⟨a.id, .skipped .upstreamStop, st.vars⟩)
  else if !(condHolds ctx st a) then
    ({ st with statuses := mapSet st.statuses a.id (.skipped .conditionFalse) },
     ⟨a.id, .skipped .conditionFalse, st.vars⟩)
  else if !(depsMet st a) && !(a.onError == ErrorPolicy.contin) then
    ({ st with statuses := mapSet st.statuses a.id (.skipped .dependencyNotMet) },
     ⟨a.id, .skipped .dependencyNotMet, st.vars⟩)
  else if !(isAllowedSpec ctx.permissions (capOf a)) then
    ({ st with
        statuses := mapSet st.statuses a.id ActionStatus.failed,
        aborted := st.aborted || (a.onError == ErrorPolicy.stop) },
     ⟨a.id, .failed, st.vars⟩)
  else if (hnd a.id).success then
    ({ vars := bindOutput st a (hnd a.id),
       statuses := mapSet st.statuses a.id ActionStatus.completed,
       aborted := st.aborted },
     ⟨a.id, .completed, st.vars⟩)
  else
    ({ st with
        statuses := mapSet st.statuses a.id ActionStatus.failed,
        aborted := st.aborted || (a.onError == ErrorPolicy.stop) },
     ⟨a.id, .failed, st.vars⟩)

/-- Run the actions strictly sequentially, folding the state and collecting
the trace. -/
def runActions (capOf : ActionSpec → String) (hnd : String → ActionResult)
    (ctx : StaticCtx) : RunState → List ActionSpec → RunState × List StepRecord
  | st, [] => (st, [])
  | st, a :: rest =>
    let s := runStep capOf hnd ctx st a
    let f := runActions capOf hnd ctx s.1 rest
    (f.1, s.2 :: f.2)

/-- One whole run: schedule the manifest's actions and dispatch them over a
fresh state. -/
def runSkill (capOf : ActionSpec → String) (hnd : String → ActionResult)
    (ctx : StaticCtx) (m : SkillManifest) : RunState × List StepRecord :=
  runActions capOf hnd ctx ⟨[], [], false⟩ (topoOrder m.actions).1

/-- §7: validation errors are returned in bulk before any run starts — a
manifest with validation errors is never executed. -/
def executeSkill (capOf : ActionSpec → String) (hnd : String → ActionResult)
    (ctx : StaticCtx) (m : SkillManifest) :
    Except (List ValidationError) (RunState × List StepRecord) :=
  if validate m = [] then .ok (runSkill capOf hnd ctx m)
  else .error (validate m)

/-! ### Concrete run fixtures used by the witnesses -/

def demoActionA : ActionSpec :=
  { id := "create-contact", type := "mcp:call", outputTo := some "contact" }

def demoActionB : ActionSpec :=
  { id := "add-to-workflow", type := "mcp:call", dependsOn := ["create-contact"] }

def demoManifest : SkillManifest :=
  { name := "Lead Capture", slug := "lead-capture", version := "1.0.0"
    permissions := ["*"], onboarding := []
    actions := [demoActionA, demoActionB] }

def cyclicManifest : SkillManifest :=
  { name := "Cyclic", slug := "cyclic", version := "1.0.0"
    permissions := [], onboarding := []
    actions := [{ id := "a", type := "noop", dependsOn := ["b"] },
                { id := "b", type := "noop", dependsOn := ["a"] }] }

def demoCtx : StaticCtx :=
  { config := [], input := [], onboardingData := [], permissions := ["*"] }

def demoCapOf : ActionSpec → String := fun a => a.type

def demoHandler : String → ActionResult :=
  fun i => { success := true, data := .str i, error := none }

/-- A handler that agrees with `demoHandler` on short ids but fails long ones
(used to witness determinism in the handler outputs). -/
def demoHandlerAlt : String → ActionResult :=
  fun i =>
    if i.data.length ≤ 20 then { success := true, data := .str i, error := none }
    else { success := false, data := .null, error := some "boom" }

end RocketDash

namespace RocketDash

/-! ## Helper lemmas -/

theorem any_eq_of_perm (f : String → Bool) {l l' : List String} (h : l.Perm l') :
    l.any f = l'.any f := by
  rw [Bool.eq_iff_iff]
  simp only [List.any_eq_true]
  constructor
  · rintro ⟨p, hp, hf⟩; exact ⟨p, h.mem_iff.mp hp, hf⟩
  · rintro ⟨p, hp, hf⟩; exact ⟨p, h.mem_iff.mpr hp, hf⟩

theorem mapFind_mapSet_self {α : Type} (m : List (String × α)) (k : String) (v : α) :
    mapFind (mapSet m k v) k = some v := by
  induction m with
  | nil => simp [mapSet, mapFind, List.find?]
  | cons kv rest ih =>
    obtain ⟨k', v'⟩ := kv
    by_cases hk : k' = k
    · simp [mapSet, hk, mapFind, List.find?]
    · simpa [mapSet, hk, mapFind, List.find?,
        show (k' == k) = false by simpa using hk] using ih

theorem mapFind_mapSet_ne {α : Type} (m : List (String × α)) (k k' : String) (v : α)
    (h : k' ≠ k) : mapFind (mapSet m k v) k' = mapFind m k' := by
  induction m with
  | nil =>
    simp [mapSet, mapFind, List.find?, show (k == k') = false by simpa using (Ne.symm h)]
  | cons kv rest ih =>
    obtain ⟨k₀, v₀⟩ := kv
    by_cases hk : k₀ = k
    · subst hk
      simp [mapSet, mapFind, List.find?,
        show (k₀ == k') = false by simpa using fun e => h e.symm]
    · by_cases hk' : k₀ = k'
      · subst hk'
        simp [mapSet, mapFind, List.find?, show (k₀ == k) = false by simpa using hk]
      · simpa [mapSet, mapFind, List.find?,
          show (k₀ == k) = false by simpa using hk,
          show (k₀ == k') = false by simpa using hk'] using ih

theorem mapFind_mapErase_ne {α : Type} (m : List (String × α)) (k k' : String)
    (h : k ≠ k') : mapFind (mapErase m k') k = mapFind m k := by
  induction m with
  | nil => rfl
  | cons kv rest ih =>
    obtain ⟨k₀, v₀⟩ := kv
    by_cases h₀ : k₀ = k'
    · subst h₀
      simp [mapErase, mapFind, List.find?, List.filter,
        show (k₀ == k) = false by simpa using fun e => h e.symm] at ih ⊢
      exact ih
    · by_cases hk : k₀ = k
      · subst hk
        simp [mapErase, mapFind, List.find?, List.filter,
          show (k₀ != k') = true by simpa using h₀]
      · simp [mapErase, mapFind, List.find?, List.filter,
          show (k₀ != k') = true by simpa using h₀,
          show (k₀ == k) = false by simpa using hk] at ih ⊢
        exact ih

/-! ### Scheduler lemmas -/

theorem readyAction_dep (ids done : List String) (a : ActionSpec)
    (h : readyAction ids done a = true) (d : String)
    (hd : d ∈ a.dependsOn) (hids : d ∈ ids) : d ∈ done := by
  have hone := List.all_eq_true.mp h d hd
  rcases Bool.or_eq_true_iff.mp hone with hc | hc
  · simpa [List.contains_eq_any_beq, List.any_eq_true] using hc
  · exact absurd hids (by simpa [List.contains_eq_any_beq, List.any_eq_true] using hc)

theorem pickReady_spec (ids done : List String) :
    ∀ (l : List ActionSpec) (a : ActionSpec) (rest : List ActionSpec),
      pickReady ids done l = some (a, rest) →
      l.Perm (a :: rest) ∧ readyAction ids done a = true := by
  intro l
  induction l with
  | nil => intro a rest h; simp [pickReady] at h
  | cons b l ih =>
    intro a rest h
    rw [pickReady] at h
    split_ifs at h with hb
    · injection h with h'
      injection h' with h1 h2
      subst h1; subst h2
      exact ⟨List.Perm.refl _, hb⟩
    · cases hrec : pickReady ids done l with
      | none => rw [hrec] at h; exact Option.noConfusion h
      | some pr =>
        obtain ⟨c, rest'⟩ := pr
        rw [hrec] at h
        injection h with h'
        injection h' with h1 h2
        obtain ⟨hperm, hready⟩ := ih c rest' hrec
        subst h1
        subst h2
        refine ⟨?_, hready⟩
        refine (hperm.cons b).trans ?_
        exact List.Perm.swap c b rest'

theorem kahnAux_perm (ids : List String) :
    ∀ (fuel : Nat) (done : List String) (remaining : List ActionSpec),
      remaining.Perm
        ((kahnAux ids fuel done remaining).1 ++ (kahnAux ids fuel done remaining).2) := by
  intro fuel
  induction fuel with
  | zero => intro done remaining; simp [kahnAux]
  | succ fuel ih =>
    intro done remaining
    cases hpick : pickReady ids done remaining with
    | none => simp [kahnAux, hpick]
    | some pr =>
      obtain ⟨a, rest⟩ := pr
      obtain ⟨hperm, -⟩ := pickReady_spec ids done remaining a rest hpick
      simp only [kahnAux, hpick]
      refine hperm.trans ?_
      rw [List.cons_append]
      exact (ih (done ++ [a.id]) rest).cons a

theorem kahnAux_deps_before (ids : List String) :
    ∀ (fuel : Nat) (done : List String) (remaining rem' : List ActionSpec)
      (ord : List ActionSpec),
      kahnAux ids fuel done remaining = (ord, rem') →
      ∀ l₁ b l₂, ord = l₁ ++ b :: l₂ →
        ∀ d, d ∈ b.dependsOn → d ∈ ids → d ∉ done →
          d ∈ l₁.map (fun a => a.id) := by
  intro fuel
  induction fuel with
  | zero =>
    intro done remaining rem' ord h l₁ b l₂ hord d _ _ _
    rw [kahnAux] at h
    injection h with h1 h2
    rw [← h1] at hord
    exact absurd hord.symm (by simp)
  | succ fuel ih =>
    intro done remaining rem' ord h l₁ b l₂ hord d hd hids hdone
    cases hpick : pickReady ids done remaining with
    | none =>
      rw [kahnAux, hpick] at h
      injection h with h1 h2
      rw [← h1] at hord
      exact absurd hord.symm (by simp)
    | some pr =>
      obtain ⟨a, rest⟩ := pr
      obtain ⟨-, hready⟩ := pickReady_spec ids done remaining a rest hpick
      simp only [kahnAux, hpick] at h
      injection h with h1 h2
      cases l₁ with
      | nil =>
        simp only [List.nil_append] at hord
        rw [← h1] at hord
        injection hord with hab _
        subst hab
        exact absurd (readyAction_dep ids done a hready d hd hids) hdone
      | cons c l₁' =>
        rw [← h1] at hord
        rw [List.cons_append] at hord
        injection hord with hac htail
        subst hac
        by_cases hda : d = a.id
        · simp [hda]
        · have hrec := ih (done ++ [a.id]) rest
            (kahnAux ids fuel (done ++ [a.id]) rest).2
            (kahnAux ids fuel (done ++ [a.id]) rest).1 rfl
            l₁' b l₂ htail d hd hids
            (by
              intro hmem
              rcases List.mem_append.mp hmem with hmem | hmem
              · exact hdone hmem
              · exact hda (by simpa using hmem))
          simp
          right
          simpa using hrec

/-! ### Cycle lemmas -/

theorem depEdge_src_mem (actions : List ActionSpec) (i d : String)
    (h : depEdge actions i d = true) : i ∈ actionIds actions := by
  simp only [depEdge, List.any_eq_true, Bool.and_eq_true] at h
  obtain ⟨a, ha, hid, -⟩ := h
  simp only [actionIds, List.mem_map]
  exact ⟨a, ha, by simpa using hid⟩

theorem cycleChain_edges (actions : List ActionSpec) (first : String) :
    ∀ l : List String, cycleChain actions first l = true →
      ∀ i ∈ l, ∃ j, (j ∈ l ∨ j = first) ∧ depEdge actions i j = true := by
  intro l
  induction l with
  | nil => intro h; simp [cycleChain] at h
  | cons i₀ l ih =>
    intro h i hi
    cases l with
    | nil =>
      have he : depEdge actions i₀ first = true := by simpa [cycleChain] using h
      have : i = i₀ := by simpa using hi
      subst this
      exact ⟨first, Or.inr rfl, he⟩
    | cons j₀ l' =>
      rw [cycleChain] at h
      obtain ⟨h1, h2⟩ := Bool.and_eq_true_iff.mp h
      rcases List.mem_cons.mp hi with rfl | hi'
      · exact ⟨j₀, Or.inl (by simp), h1⟩
      · obtain ⟨j, hj, he⟩ := ih h2 i hi'
        refine ⟨j, ?_, he⟩
        rcases hj with hj | hj
        · exact Or.inl (List.mem_cons_of_mem _ hj)
        · exact Or.inr hj

theorem isDepCycle_edges (actions : List ActionSpec) (c : List String)
    (h : isDepCycle actions c = true) :
    c ≠ [] ∧ ∀ i ∈ c, ∃ j ∈ c, depEdge actions i j = true := by
  cases c with
  | nil => simp [isDepCycle] at h
  | cons i₀ rest =>
    refine ⟨by simp, ?_⟩
    intro i hi
    have h' : cycleChain actions i₀ (i₀ :: rest) = true := by
      simpa [isDepCycle] using h
    obtain ⟨j, hj, he⟩ := cycleChain_edges actions i₀ (i₀ :: rest) h' i hi
    rcases hj with hj | rfl
    · exact ⟨j, hj, he⟩
    · exact ⟨j, by simp, he⟩

theorem nodup_map_eq {α β : Type} (f : α → β) (l : List α)
    (h : (l.map f).Nodup) :
    ∀ x ∈ l, ∀ y ∈ l, f x = f y → x = y := by
  induction l with
  | nil => simp
  | cons a l ih =>
    rw [List.map_cons, List.nodup_cons] at h
    obtain ⟨hna, hl⟩ := h
    intro x hx y hy hfxy
    rcases List.mem_cons.mp hx with hxa | hx'
    · rcases List.mem_cons.mp hy with hya | hy'
      · rw [hxa, hya]
      · exact absurd (List.mem_map.mpr ⟨y, hy', by rw [← hfxy, hxa]⟩) hna
    · rcases List.mem_cons.mp hy with hya | hy'
      · exact absurd (List.mem_map.mpr ⟨x, hx', by rw [hfxy, hya]⟩) hna
      · exact ih hl x hx' y hy' hfxy

theorem depEdge_dependsOn (actions : List ActionSpec)
    (hnodup : (actionIds actions).Nodup) (a : ActionSpec) (ha : a ∈ actions)
    (j : String) (he : depEdge actions a.id j = true) : j ∈ a.dependsOn := by
  simp only [depEdge, List.any_eq_true, Bool.and_eq_true] at he
  obtain ⟨b, hb, hid, hdep⟩ := he
  have hba : b = a :=
    nodup_map_eq (fun x => x.id) actions (by simpa [actionIds] using hnodup)
      b hb a ha (by simpa using hid)
  subst hba
  simpa [List.contains_eq_any_beq, List.any_eq_true] using hdep

theorem kahnAux_cycle_stuck (actions : List ActionSpec) (c : List String)
    (hnodup : (actionIds actions).Nodup)
    (hsrc : ∀ i ∈ c, ∃ j ∈ c, depEdge actions i j = true) :
    ∀ (fuel : Nat) (done : List String) (remaining : List ActionSpec),
      (∀ a ∈ remaining, a ∈ actions) →
      (∀ i ∈ c, i ∉ done) →
      (∀ i ∈ c, ∃ a ∈ remaining, a.id = i) →
      ∀ i ∈ c, ∃ a ∈ (kahnAux (actionIds actions) fuel done remaining).2, a.id = i := by
  intro fuel
  induction fuel with
  | zero =>
    intro done remaining _ _ hin i hi
    simpa [kahnAux] using hin i hi
  | succ fuel ih =>
    intro done remaining hrem hdone hin i hi
    cases hpick : pickReady (actionIds actions) done remaining with
    | none => simpa [kahnAux, hpick] using hin i hi
    | some pr =>
      obtain ⟨a, rest⟩ := pr
      obtain ⟨hperm, hready⟩ := pickReady_spec (actionIds actions) done remaining a rest hpick
      have haid : a.id ∉ c := by
        intro haidc
        obtain ⟨j, hjc, hedge⟩ := hsrc a.id haidc
        have hj_dep : j ∈ a.dependsOn :=
          depEdge_dependsOn actions hnodup a (hrem a (hperm.mem_iff.mpr (by simp))) j hedge
        have hj_ids : j ∈ actionIds actions := by
          obtain ⟨k, hk, he⟩ := hsrc j hjc
          exact depEdge_src_mem actions j k he
        exact hdone j hjc (readyAction_dep _ _ _ hready j hj_dep hj_ids)
      have hrem' : ∀ b ∈ rest, b ∈ actions := fun b hb =>
        hrem b (hperm.mem_iff.mpr (List.mem_cons_of_mem _ hb))
      have hdone' : ∀ j ∈ c, j ∉ done ++ [a.id] := by
        intro j hj hmem
        rcases List.mem_append.mp hmem with hmem | hmem
        · exact hdone j hj hmem
        · have hje : j = a.id := by simpa using hmem
          exact haid (hje ▸ hj)
      have hin' : ∀ j ∈ c, ∃ b ∈ rest, b.id = j := by
        intro j hj
        obtain ⟨b, hb, hbid⟩ := hin j hj
        rcases List.mem_cons.mp (hperm.mem_iff.mp hb) with rfl | hb'
        · exact absurd (hbid ▸ hj) haid
        · exact ⟨b, hb', hbid⟩
      simpa [kahnAux, hpick] using ih (done ++ [a.id]) rest hrem' hdone' hin' i hi

theorem topoOrder_cycle_stuck (actions : List ActionSpec) (c : List String)
    (hnodup : (actionIds actions).Nodup) (hcyc : isDepCycle actions c = true) :
    (topoOrder actions).2 ≠ [] ∧ ∀ i ∈ c, i ∈ actionIds (topoOrder actions).2 := by
  obtain ⟨hc, hsrc⟩ := isDepCycle_edges actions c hcyc
  have hin : ∀ i ∈ c, ∃ a ∈ actions, a.id = i := by
    intro i hi
    obtain ⟨j, _, he⟩ := hsrc i hi
    have := depEdge_src_mem actions i j he
    simpa [actionIds, List.mem_map] using this
  have hstuck := kahnAux_cycle_stuck actions c hnodup hsrc actions.length []
    actions (fun a ha => ha) (by simp) hin
  constructor
  · obtain ⟨i₀, hi₀⟩ := List.exists_mem_of_ne_nil c hc
    obtain ⟨a, ha, -⟩ := hstuck i₀ hi₀
    intro hempty
    rw [topoOrder] at hempty
    rw [hempty] at ha
    exact List.not_mem_nil a ha
  · intro i hi
    obtain ⟨a, ha, haid⟩ := hstuck i hi
    rw [topoOrder]
    exact List.mem_map.mpr ⟨a, ha, haid⟩

/-! ### Runtime lemmas -/

theorem mapFind_bindOutput_other (st : RunState) (a : ActionSpec) (r : ActionResult)
    (y : String) (hy : a.outputTo ≠ some y) :
    mapFind (bindOutput st a r) y = mapFind st.vars y := by
  cases ho : a.outputTo with
  | none => simp [bindOutput, ho]
  | some x =>
    have hxy : y ≠ x := fun h => hy (by rw [ho, h])
    simp [bindOutput, ho, mapFind_mapSet_ne st.vars x y r.data hxy]

theorem mapFind_bindOutput_self (st : RunState) (a : ActionSpec) (r : ActionResult)
    (x : String) (hx : a.outputTo = some x) :
    mapFind (bindOutput st a r) x = some r.data := by
  simp [bindOutput, hx, mapFind_mapSet_self]

theorem runStep_record (capOf : ActionSpec → String) (hnd : String → ActionResult)
    (ctx : StaticCtx) (st : RunState) (a : ActionSpec) :
    (runStep capOf hnd ctx st a).2.id = a.id ∧
    (runStep capOf hnd ctx st a).2.varsBefore = st.vars := by
  by_cases h1 : st.aborted <;>
    by_cases h2 : condHolds ctx st a <;>
      by_cases h3 : depsMet st a <;>
        by_cases h4 : a.onError == ErrorPolicy.contin <;>
          by_cases h5 : isAllowedSpec ctx.permissions (capOf a) <;>
            by_cases h6 : (hnd a.id).success <;>
              simp [runStep, h1, h2, h3, h4, h5, h6]

theorem runStep_statuses_self (capOf : ActionSpec → String) (hnd : String → ActionResult)
    (ctx : StaticCtx) (st : RunState) (a : ActionSpec) :
    mapFind (runStep capOf hnd ctx st a).1.statuses a.id =
      some ((runStep capOf hnd ctx st a).2.status) := by
  by_cases h1 : st.aborted <;>
    by_cases h2 : condHolds ctx st a <;>
      by_cases h3 : depsMet st a <;>
        by_cases h4 : a.onError == ErrorPolicy.contin <;>
          by_cases h5 : isAllowedSpec ctx.permissions (capOf a) <;>
            by_cases h6 : (hnd a.id).success <;>
              simp [runStep, h1, h2, h3, h4, h5, h6, mapFind_mapSet_self]

theorem runStep_statuses_other (capOf : ActionSpec → String) (hnd : String → ActionResult)
    (ctx : StaticCtx) (st : RunState) (a : ActionSpec) (i : String) (hne : i ≠ a.id) :
    mapFind (runStep capOf hnd ctx st a).1.statuses i = mapFind st.statuses i := by
  by_cases h1 : st.aborted <;>
    by_cases h2 : condHolds ctx st a <;>
      by_cases h3 : depsMet st a <;>
        by_cases h4 : a.onError == ErrorPolicy.contin <;>
          by_cases h5 : isAllowedSpec ctx.permissions (capOf a) <;>
            by_cases h6 : (hnd a.id).success <;>
              simp [runStep, h1, h2, h3, h4, h5, h6,
                mapFind_mapSet_ne st.statuses a.id i _ hne]

theorem runStep_vars_other (capOf : ActionSpec → String) (hnd : String → ActionResult)
    (ctx : StaticCtx) (st : RunState) (a : ActionSpec) (y : String)
    (hy : a.outputTo ≠ some y) :
    mapFind (runStep capOf hnd ctx st a).1.vars y = mapFind st.vars y := by
  by_cases h1 : st.aborted <;>
    by_cases h2 : condHolds ctx st a <;>
      by_cases h3 : depsMet st a <;>
        by_cases h4 : a.onError == ErrorPolicy.contin <;>
          by_cases h5 : isAllowedSpec ctx.permissions (capOf a) <;>
            by_cases h6 : (hnd a.id).success <;>
              simp [runStep, h1, h2, h3, h4, h5, h6,
                mapFind_bindOutput_other st a (hnd a.id) y hy]

theorem runStep_completed (capOf : ActionSpec → String) (hnd : String → ActionResult)
    (ctx : StaticCtx) (st : RunState) (a : ActionSpec)
    (hs : (runStep capOf hnd ctx st a).2.status = ActionStatus.completed) :
    (hnd a.id).success = true ∧
    (runStep capOf hnd ctx st a).1.vars = bindOutput st a (hnd a.id) := by
  by_cases h1 : st.aborted <;>
    by_cases h2 : condHolds ctx st a <;>
      by_cases h3 : depsMet st a <;>
        by_cases h4 : a.onError == ErrorPolicy.contin <;>
          by_cases h5 : isAllowedSpec ctx.permissions (capOf a) <;>
            by_cases h6 : (hnd a.id).success <;>
              simp_all [runStep]

theorem runActions_append (capOf : ActionSpec → String) (hnd : String → ActionResult)
    (ctx : StaticCtx) :
    ∀ (l₁ l₂ : List ActionSpec) (st : RunState),
      runActions capOf hnd ctx st (l₁ ++ l₂) =
        ((runActions capOf hnd ctx (runActions capOf hnd ctx st l₁).1 l₂).1,
         (runActions capOf hnd ctx st l₁).2 ++
           (runActions capOf hnd ctx (runActions capOf hnd ctx st l₁).1 l₂).2) := by
  intro l₁
  induction l₁ with
  | nil => intro l₂ st; simp [runActions]
  | cons a l ih =>
    intro l₂ st
    simp only [runActions, List.cons_append, List.append_eq]
    rw [ih l₂ (runStep capOf hnd ctx st a).1]

theorem runActions_statuses_other (capOf : ActionSpec → String)
    (hnd : String → ActionResult) (ctx : StaticCtx) :
    ∀ (l : List ActionSpec) (st : RunState) (i : String),
      (∀ a ∈ l, a.id ≠ i) →
      mapFind (runActions capOf hnd ctx st l).1.statuses i = mapFind st.statuses i := by
  intro l
  induction l with
  | nil => intro st i _; rfl
  | cons a l ih =>
    intro st i hne
    simp only [runActions]
    rw [ih (runStep capOf hnd ctx st a).1 i (fun b hb => hne b (List.mem_cons_of_mem _ hb))]
    exact runStep_statuses_other capOf hnd ctx st a i
      (fun h => hne a (by simp) h.symm)

theorem runActions_vars_other (capOf : ActionSpec → String)
    (hnd : String → ActionResult) (ctx : StaticCtx) :
    ∀ (l : List ActionSpec) (st : RunState) (y : String),
      (∀ a ∈ l, a.outputTo ≠ some y) →
      mapFind (runActions capOf hnd ctx st l).1.vars y = mapFind st.vars y := by
  intro l
  induction l with
  | nil => intro st y _; rfl
  | cons a l ih =>
    intro st y hne
    simp only [runActions]
    rw [ih (runStep capOf hnd ctx st a).1 y (fun b hb => hne b (List.mem_cons_of_mem _ hb))]
    exact runStep_vars_other capOf hnd ctx st a y (hne a (by simp))

theorem runStep_handler_congr (capOf : ActionSpec → String) (ctx : StaticCtx)
    (st : RunState) (a : ActionSpec) (h₁ h₂ : String → ActionResult)
    (hag : h₁ a.id = h₂ a.id) :
    runStep capOf h₁ ctx st a = runStep capOf h₂ ctx st a := by
  unfold runStep
  rw [hag]

theorem runActions_handler_congr (capOf : ActionSpec → String) (ctx : StaticCtx)
    (h₁ h₂ : String → ActionResult) :
    ∀ (l : List ActionSpec) (st : RunState),
      (∀ a ∈ l, h₁ a.id = h₂ a.id) →
      runActions capOf h₁ ctx st l = runActions capOf h₂ ctx st l := by
  intro l
  induction l with
  | nil => intro st _; rfl
  | cons a l ih =>
    intro st hag
    simp only [runActions]
    rw [runStep_handler_congr capOf ctx st a h₁ h₂ (hag a (by simp)),
      ih (runStep capOf h₂ ctx st a).1 (fun b hb => hag b (List.mem_cons_of_mem _ hb))]

theorem topoOrder_subset (actions : List ActionSpec) :
    ∀ a ∈ (topoOrder actions).1, a ∈ actions := by
  intro a ha
  have hperm := kahnAux_perm (actionIds actions) actions.length [] actions
  exact hperm.mem_iff.mpr (List.mem_append.mpr (Or.inl ha))

theorem validate_nil_no_stuck (m : SkillManifest) (h : validate m = []) :
    (topoOrder m.actions).2 = [] := by
  rw [validate] at h
  have hlast := (List.append_eq_nil.mp h).2
  by_cases hne : (topoOrder m.actions).2.isEmpty
  · simpa [List.isEmpty_iff] using hne
  · rw [if_neg hne] at hlast
    exact absurd hlast (by simp)

theorem topoOrder_perm_of_no_stuck (actions : List ActionSpec)
    (h2 : (topoOrder actions).2 = []) :
    actions.Perm (topoOrder actions).1 := by
  have hperm := kahnAux_perm (actionIds actions) actions.length [] actions
  have : (topoOrder actions).2 = (kahnAux (actionIds actions) actions.length [] actions).2 := rfl
  rw [this] at h2
  simpa [topoOrder, h2] using hperm

/-! ## Claim theorems -/

/-- C1 (counterexample): the spec's permission rule fails on `hasPermission`.
With granted `["mcp:ghl:*"]` the claim's scenario says `"mcp:ghl:create_contact"`
is allowed, but the code denies it; with granted `["*"]` the claim's global
wildcard clause says `"content:read"` is allowed, but the code denies it; and
with granted `["admin:*"]` the claim says `"mcp:stripe:create_customer"` is
denied, but the code allows it. -/
theorem hasPermission_refutes_spec_rule :
    hasPermission ["mcp:ghl:*"] "mcp:ghl:create_contact" = false ∧
    hasPermission ["*"] "content:read" = false ∧
    hasPermission ["admin:*"] "mcp:stripe:create_customer" = true := by
  refine ⟨?_, ?_, ?_⟩ <;> rfl

/-- C1 (amended): `hasPermission granted p` returns `true` iff `"admin:*"` is
granted, or `p` is granted exactly, or `category:*` is granted where `category`
is the prefix of `p` before its first `:` — and `false` in every other case;
the global wildcard `"*"` is not special, and granted `["mcp:ghl:*"]` denies
both `"mcp:ghl:create_contact"` and `"mcp:stripe:create_customer"`. -/
theorem hasPermission_characterization (granted : List String) (p : String) :
    hasPermission granted p = true ↔
      "admin:*" ∈ granted ∨ p ∈ granted ∨ (category p ++ ":*") ∈ granted := by
  simp only [hasPermission]
  split_ifs with h1 h2 h3 <;>
    simp_all [List.contains_eq_any_beq, List.any_eq_true]

/-- C4: `calculateRiskLevel` is order-independent (invariant under permutation
of the permission list) and classifies exactly as the spec states: critical iff
the set contains the global wildcard `*`; else high iff some pattern is one of
the deletion / server-execution / environment-write patterns; else medium iff
some pattern contains `write`; else low. -/
theorem calculateRiskLevel_spec (l l' : List String) (hperm : l.Perm l') :
    calculateRiskLevel l = calculateRiskLevel l' ∧
    (calculateRiskLevel l = .critical ↔ "*" ∈ l) ∧
    (calculateRiskLevel l = .high ↔ "*" ∉ l ∧ ∃ p ∈ l, p ∈ highRisk) ∧
    (calculateRiskLevel l = .medium ↔
      "*" ∉ l ∧ (∀ p ∈ l, p ∉ highRisk) ∧ ∃ p ∈ l, strIncludes p "write" = true) ∧
    (calculateRiskLevel l = .low ↔
      "*" ∉ l ∧ (∀ p ∈ l, p ∉ highRisk) ∧ ∀ p ∈ l, strIncludes p "write" = false) := by
  constructor
  · simp only [calculateRiskLevel,
      any_eq_of_perm (fun p => criticalRisk.contains p) hperm,
      any_eq_of_perm (fun p => highRisk.contains p) hperm,
      any_eq_of_perm (fun p => strIncludes p "write") hperm]
  · have hcrit : (l.any (fun p => criticalRisk.contains p) = true) ↔ "*" ∈ l := by
      simp [List.any_eq_true, criticalRisk, List.contains_eq_any_beq, List.any_eq_true]
    have hhigh : (l.any (fun p => highRisk.contains p) = true) ↔ ∃ p ∈ l, p ∈ highRisk := by
      simp [List.any_eq_true, List.contains_eq_any_beq, List.any_eq_true, highRisk]
    have hmed : (l.any (fun p => strIncludes p "write") = true) ↔
        ∃ p ∈ l, strIncludes p "write" = true := by
      simp [List.any_eq_true]
    simp only [calculateRiskLevel]
    split_ifs with h1 h2 h3 <;> simp_all

/-- C4 witness: the risk of `["mcp:ghl:*", "files:delete"]` is independent of
the enumeration order (and is `high`). -/
theorem calculateRiskLevel_spec_witness :
    calculateRiskLevel ["mcp:ghl:*", "files:delete"] =
      calculateRiskLevel ["files:delete", "mcp:ghl:*"] ∧
    calculateRiskLevel ["mcp:ghl:*", "files:delete"] = .high :=
  ⟨(calculateRiskLevel_spec ["mcp:ghl:*", "files:delete"]
      ["files:delete", "mcp:ghl:*"] (by decide)).1,
   (calculateRiskLevel_spec ["mcp:ghl:*", "files:delete"]
      ["files:delete", "mcp:ghl:*"] (by decide)).2.2.1.mpr (by decide)⟩

/-- C9: unregistering a slug whose registered server is built-in throws
`Cannot unregister built-in server` (no state change, no database delete),
and whenever `unregisterServer` does succeed, any server that was present
before and is gone afterwards had `isBuiltIn = false`. -/
theorem unregisterServer_builtin_protected (st : RegistryState) (slug : String) :
    (∀ s, mapFind st.servers slug = some s → s.isBuiltIn = true →
      unregisterServer st slug = .error "Cannot unregister built-in server") ∧
    (∀ st' ops, unregisterServer st slug = .ok (st', ops) →
      ∀ k s, mapFind st.servers k = some s → mapFind st'.servers k = none →
        s.isBuiltIn = false) := by
  constructor
  · intro s hfind hbuilt
    simp [unregisterServer, hfind, hbuilt]
  · intro st' ops hok k s hbefore hafter
    by_cases hk : k = slug
    · subst hk
      rw [unregisterServer, hbefore] at hok
      by_cases hb : s.isBuiltIn
      · simp [hb] at hok
      · simpa using hb
    · exfalso
      have hst' : st'.servers = mapErase st.servers slug := by
        rw [unregisterServer] at hok
        cases hfind : mapFind st.servers slug with
        | none =>
          rw [hfind] at hok
          exact congrArg RegistryState.servers
            (by injection hok with h; exact (congrArg Prod.fst h).symm)
        | some server =>
          rw [hfind] at hok
          by_cases hb : server.isBuiltIn <;> simp [hb] at hok
          exact congrArg RegistryState.servers hok.1.symm
      have hsame : mapFind st'.servers k = some s := by
        rw [hst', mapFind_mapErase_ne _ _ _ hk, hbefore]
      rw [hsame] at hafter
      exact Option.noConfusion hafter

/-- C9 witness: a registry holding the built-in GoHighLevel server refuses to
unregister it. -/
theorem unregisterServer_builtin_protected_witness :
    unregisterServer ⟨[("gohighlevel", ghlBuiltinServer)]⟩ "gohighlevel" =
      .error "Cannot unregister built-in server" :=
  (unregisterServer_builtin_protected ⟨[("gohighlevel", ghlBuiltinServer)]⟩
    "gohighlevel").1 ghlBuiltinServer rfl rfl

/-- C8: for every `process.env`, user id and request environment, the minimal
context the direct MCP route builds — and in particular the context its `POST`
handler executes tools under — carries exactly the blanket grant `["mcp:*"]`,
both as the context's permissions and as its manifest's permissions. -/
theorem createMinimalContext_blanket_grant (processEnv : List (String × String))
    (userId : String) (environment : List (String × String)) :
    (createMinimalContext processEnv userId environment).permissions = ["mcp:*"] ∧
    (createMinimalContext processEnv userId environment).manifest.permissions = ["mcp:*"] ∧
    (POSTContext processEnv environment).permissions = ["mcp:*"] ∧
    (POSTContext processEnv environment).manifest.permissions = ["mcp:*"] :=
  ⟨rfl, rfl, rfl, rfl⟩

/-- C10 (counterexample): `hashPassword` is **not** deterministic for every
fixed salt — at the empty-string salt the source's falsy check
`salt || crypto.randomBytes(16)` draws a fresh random salt per call, so two
calls with different draws disagree (key derivation instantiated concretely). -/
theorem hashPassword_empty_salt_not_deterministic :
    hashPassword (fun _ s => s) "r1" "pw" (some "") ≠
      hashPassword (fun _ s => s) "r2" "pw" (some "") := by decide

/-- C10 (amended): whenever the fresh random salt drawn is nonempty (the
source's `crypto.randomBytes(16).toString('hex')` is always 32 characters),
hashing then verifying round-trips: `verifyPassword` accepts the hash/salt
pair `hashPassword` returned, for any deterministic key-derivation function,
any password, any provided-or-absent salt, and regardless of the draw made at
verify time — so verification depends only on the password and the stored
hash:salt pair; and `hashPassword` is deterministic for every fixed
**nonempty** salt (the empty-string salt re-randomizes instead). -/
theorem hashPassword_verifyPassword_roundtrip (pbkdf2 : String → String → String)
    (randomSalt randomSalt' password : String) (salt? : Option String)
    (hrand : randomSalt ≠ "") :
    verifyPassword pbkdf2 randomSalt' password
      (hashPassword pbkdf2 randomSalt password salt?).hash
      (hashPassword pbkdf2 randomSalt password salt?).salt = true ∧
    (∀ r₁ r₂ s, s ≠ "" → hashPassword pbkdf2 r₁ password (some s) =
      hashPassword pbkdf2 r₂ password (some s)) := by
  constructor
  · have hne : (hashPassword pbkdf2 randomSalt password salt?).salt ≠ "" := by
      cases salt? with
      | none => simpa [hashPassword] using hrand
      | some s =>
        by_cases hs : s = ""
        · simpa [hashPassword, hs] using hrand
        · simpa [hashPassword, hs] using hs
    have hrehash : ∀ t : String, t ≠ "" →
        (hashPassword pbkdf2 randomSalt' password (some t)).hash =
          pbkdf2 password t := by
      intro t ht
      simp [hashPassword, ht]
    have hh : (hashPassword pbkdf2 randomSalt password salt?).hash =
        pbkdf2 password (hashPassword pbkdf2 randomSalt password salt?).salt := by
      cases salt? <;> simp [hashPassword]
    rw [verifyPassword, hrehash _ hne, hh]
    simp
  · intro r₁ r₂ s hs
    simp [hashPassword, hs]

/-- C10 witness: with a nonempty random draw, verification accepts the pair
`hashPassword` produced even under a different draw at verify time, and
hashing is deterministic at the fixed nonempty salt `mysalt`. -/
theorem hashPassword_verifyPassword_roundtrip_witness :
    verifyPassword (fun p s => p ++ s) "draw2" "pw"
      (hashPassword (fun p s => p ++ s) "draw1" "pw" none).hash
      (hashPassword (fun p s => p ++ s) "draw1" "pw" none).salt = true ∧
    hashPassword (fun p s => p ++ s) "r1" "pw" (some "mysalt") =
      hashPassword (fun p s => p ++ s) "r2" "pw" (some "mysalt") :=
  ⟨(hashPassword_verifyPassword_roundtrip (fun p s => p ++ s) "draw1" "draw2" "pw" none
      (by decide)).1,
   (hashPassword_verifyPassword_roundtrip (fun p s => p ++ s) "draw1" "draw2" "pw" none
      (by decide)).2 "r1" "r2" "mysalt" (by decide)⟩

/-- C2: `revert` returns `NotReversible` on a non-reversible entry and leaves
the store (hence the entry's `reverted` flag) unchanged; it returns
`AlreadyReverted` on an already-reverted entry, unchanged store, every time —
in particular immediately again after a successful revert, so an entry is
never mutated twice; and a successful revert's only mutation is setting the
entry's `reverted := true` and `revertedAt := now` (all other fields and all
other entries unchanged). -/
theorem revertLog_spec (inverse : AuditLogEntry → Bool) (now : Nat)
    (store : List (String × AuditLogEntry)) (logId : String) (e : AuditLogEntry)
    (hfind : mapFind store logId = some e) :
    (e.reversible = false →
      revertLog inverse now store logId = (.notReversible, store)) ∧
    (e.reverted = true → e.reversible = true →
      revertLog inverse now store logId = (.alreadyReverted, store)) ∧
    (∀ store', revertLog inverse now store logId = (.reverted, store') →
      store' = mapSet store logId { e with reverted := true, revertedAt := some now } ∧
      mapFind store' logId = some { e with reverted := true, revertedAt := some now } ∧
      (∀ k, k ≠ logId → mapFind store' k = mapFind store k) ∧
      (∀ now', revertLog inverse now' store' logId = (.alreadyReverted, store'))) := by
  refine ⟨?_, ?_, ?_⟩
  · intro hrev
    simp [revertLog, hfind, hrev]
  · intro hrevd hrev
    simp [revertLog, hfind, hrev, hrevd]
  · intro store' hok
    simp only [revertLog, hfind] at hok
    by_cases hrev : e.reversible = false
    · rw [if_pos hrev] at hok
      exact absurd (congrArg Prod.fst hok) (by simp)
    · rw [if_neg hrev] at hok
      by_cases hrevd : e.reverted = true
      · rw [if_pos hrevd] at hok
        exact absurd (congrArg Prod.fst hok) (by simp)
      · rw [if_neg hrevd] at hok
        by_cases hinv : inverse e = true
        · rw [if_pos hinv] at hok
          have hstore : store' =
              mapSet store logId { e with reverted := true, revertedAt := some now } :=
            (congrArg Prod.snd hok).symm
          subst hstore
          refine ⟨rfl, mapFind_mapSet_self _ _ _, ?_, ?_⟩
          · intro k hk
            exact mapFind_mapSet_ne _ _ _ _ hk
          · intro now'
            simp [revertLog, mapFind_mapSet_self]
            simpa using hrev
        · rw [if_neg (by simpa using hinv)] at hok
          exact absurd (congrArg Prod.fst hok) (by simp)

theorem scanAux_nil (fuel : Nat) : scanAux fuel [] = [] := by
  cases fuel <;> simp [scanAux, splitAtMarker]

theorem splitAtMarker_self (b : Char) (ys : List Char) :
    splitAtMarker b (b :: b :: ys) = ([], some ys) := by
  simp [splitAtMarker]

theorem splitAtMarker_append (b : Char) (xs ys : List Char) (h : b ∉ xs) :
    splitAtMarker b (xs ++ b :: b :: ys) = (xs, some ys) := by
  induction xs with
  | nil => simpa using splitAtMarker_self b ys
  | cons x xs ih =>
    have hxb : ¬(x = b) := fun e => h (by simp [e])
    have htail := ih (fun hm => h (List.mem_cons_of_mem _ hm))
    cases hx : xs ++ b :: b :: ys with
    | nil => exact absurd hx (by simp)
    | cons c₂ rest =>
      calc splitAtMarker b ((x :: xs) ++ b :: b :: ys)
          = splitAtMarker b (x :: c₂ :: rest) := by rw [List.cons_append, hx]
        _ = (x :: (splitAtMarker b (c₂ :: rest)).1, (splitAtMarker b (c₂ :: rest)).2) := by
              simp [splitAtMarker, hxb]
        _ = (x :: xs, some ys) := by rw [← hx, htail]

theorem scanAux_single (n : Nat) (p : List Char) (hcb : closeBrace ∉ p) :
    scanAux (n + 1) (openBrace :: openBrace :: (p ++ [closeBrace, closeBrace])) =
      [Segment.expr p] := by
  simp only [scanAux, splitAtMarker_self,
    splitAtMarker_append closeBrace p [] hcb, scanAux_nil]
  simp

theorem scanTemplate_single (p : List Char) (t : String)
    (hcb : closeBrace ∉ p)
    (ht : t.data = openBrace :: openBrace :: (p ++ [closeBrace, closeBrace])) :
    scanTemplate t = [Segment.expr p] := by
  rw [scanTemplate, ht]
  exact scanAux_single _ p hcb

/-- C5: a template that is exactly one `{{path}}` expression resolves to the
looked-up value itself, original type preserved (`null` when undefined); and
any template that is not exactly one expression resolves to the string that
joins its segments with every expression string-interpolated. -/
theorem resolveTemplate_spec (sc : Scope) (p : List Char) (t : String)
    (hob : openBrace ∉ p) (hcb : closeBrace ∉ p)
    (ht : t.data = openBrace :: openBrace :: (p ++ [closeBrace, closeBrace])) :
    resolveTemplate sc t = (lookupScope sc p).getD .null ∧
    (∀ t' : String, (∀ q, scanTemplate t' ≠ [Segment.expr q]) →
      resolveTemplate sc t' = .str (String.join ((scanTemplate t').map (segInterp sc)))) := by
  constructor
  · rw [resolveTemplate, scanTemplate_single p t hcb ht]
  · intro t' hq
    rw [resolveTemplate]
    cases hscan : scanTemplate t' with
    | nil => simp
    | cons s rest =>
      cases s with
      | lit l => cases rest <;> simp
      | expr q =>
        cases rest with
        | nil => exact absurd hscan (hq q)
        | cons s₂ rest₂ => simp

/-- C5 witness: `{{flag}}` against a scope whose variables bind `flag` to the
boolean `true` resolves to that boolean itself, not to a string. -/
theorem resolveTemplate_spec_witness :
    resolveTemplate demoScope "\x7b\x7bflag\x7d\x7d" = .bool true := by
  have h := (resolveTemplate_spec demoScope ("flag".data) "\x7b\x7bflag\x7d\x7d"
      (by decide) (by decide) (by decide)).1
  rw [h]
  rfl

/-- C7: the scheduler/runtime is deterministic — for the same manifest and
context, two runs whose handler outputs agree on the manifest's actions
produce identical outcomes: the same execution order, the same per-action
skip/run decisions (trace) and the same final state. -/
theorem runSkill_deterministic (capOf : ActionSpec → String) (ctx : StaticCtx)
    (m : SkillManifest) (h₁ h₂ : String → ActionResult)
    (hagree : ∀ a ∈ m.actions, h₁ a.id = h₂ a.id) :
    runSkill capOf h₁ ctx m = runSkill capOf h₂ ctx m := by
  rw [runSkill, runSkill]
  exact runActions_handler_congr capOf ctx h₁ h₂ (topoOrder m.actions).1 ⟨[], [], false⟩
    (fun a ha => hagree a (topoOrder_subset m.actions a ha))

/-- C7 witness: two handlers that differ on ids outside the demo manifest but
agree on its two actions produce identical runs. -/
theorem runSkill_deterministic_witness :
    runSkill demoCapOf demoHandler demoCtx demoManifest =
      runSkill demoCapOf demoHandlerAlt demoCtx demoManifest :=
  runSkill_deterministic demoCapOf demoCtx demoManifest demoHandler demoHandlerAlt
    (by
      intro a ha
      simp only [demoManifest, List.mem_cons, List.not_mem_nil, or_false] at ha
      rcases ha with rfl | rfl <;> rfl)

/-- C6: for a validated manifest, when action `A` with `outputTo = x`
completes successfully, every action `B` declared with `A ∈ dependsOn` is
scheduled after `A` and observes `variables.x` exactly equal to the data
`A`'s handler produced (no other action writes `x`). -/
theorem run_outputTo_dataflow (capOf : ActionSpec → String)
    (hnd : String → ActionResult) (ctx : StaticCtx) (m : SkillManifest)
    (A B : ActionSpec) (x : String)
    (hnodup : (actionIds m.actions).Nodup)
    (hA : A ∈ m.actions) (hB : B ∈ m.actions)
    (hdep : A.id ∈ B.dependsOn)
    (hout : A.outputTo = some x)
    (huniq : ∀ a ∈ m.actions, a.outputTo = some x → a.id = A.id)
    (hval : validate m = [])
    (hcomp : mapFind (runSkill capOf hnd ctx m).1.statuses A.id =
      some ActionStatus.completed) :
    ∃ l₁ l₂ : List ActionSpec,
      (topoOrder m.actions).1 = l₁ ++ B :: l₂ ∧ A ∈ l₁ ∧
      mapFind ((runStep capOf hnd ctx
          (runActions capOf hnd ctx ⟨[], [], false⟩ l₁).1 B).2.varsBefore) x =
        some (hnd A.id).data := by
  have hstuck := validate_nil_no_stuck m hval
  have hperm := topoOrder_perm_of_no_stuck m.actions hstuck
  have hBord : B ∈ (topoOrder m.actions).1 := hperm.mem_iff.mp hB
  obtain ⟨u, v, huv⟩ := List.append_of_mem hBord
  have hAids : A.id ∈ actionIds m.actions :=
    List.mem_map.mpr ⟨A, hA, rfl⟩
  have hAu_id : A.id ∈ u.map (fun a => a.id) :=
    kahnAux_deps_before (actionIds m.actions) m.actions.length [] m.actions
      (topoOrder m.actions).2 (topoOrder m.actions).1 rfl u B v huv A.id hdep hAids
      (by simp)
  obtain ⟨A', hA'u, hA'id⟩ := List.mem_map.mp hAu_id
  have hA'mem : A' ∈ m.actions := topoOrder_subset m.actions A'
    (by rw [huv]; exact List.mem_append.mpr (Or.inl hA'u))
  have hA'A : A' = A := nodup_map_eq (fun a => a.id) m.actions
    (by simpa [actionIds] using hnodup) A' hA'mem A hA hA'id
  rw [hA'A] at hA'u
  obtain ⟨u₁, u₂, hu⟩ := List.append_of_mem hA'u
  have hshape : (topoOrder m.actions).1 = u₁ ++ A :: (u₂ ++ B :: v) := by
    rw [huv, hu]
    simp
  have hordnodup : ((topoOrder m.actions).1.map (fun a => a.id)).Nodup := by
    have hmp : (m.actions.map (fun a => a.id)).Perm
        ((topoOrder m.actions).1.map (fun a => a.id)) := hperm.map _
    exact hmp.nodup_iff.mp (by simpa [actionIds] using hnodup)
  have hwids : ∀ b ∈ u₂ ++ B :: v, b.id ≠ A.id := by
    rw [hshape] at hordnodup
    simp only [List.map_append, List.map_cons] at hordnodup
    have h2 := List.Nodup.of_append_right hordnodup
    have hnotin := (List.nodup_cons.mp h2).1
    intro b hb hbid
    refine hnotin ?_
    have hm : A.id ∈ (u₂ ++ B :: v).map (fun a => a.id) :=
      List.mem_map.mpr ⟨b, hb, hbid⟩
    simpa [List.map_append, List.map_cons] using hm
  have hord_sub : ∀ a ∈ (topoOrder m.actions).1, a ∈ m.actions :=
    topoOrder_subset m.actions
  refine ⟨u, v, huv, hA'u, ?_⟩
  -- names for the intermediate states
  have hrec := runStep_record capOf hnd ctx
    (runActions capOf hnd ctx ⟨[], [], false⟩ u).1 B
  rw [hrec.2]
  -- decompose the state after `u` through `u₁ ++ A :: u₂`
  have hu_state : (runActions capOf hnd ctx ⟨[], [], false⟩ u).1 =
      (runActions capOf hnd ctx
        (runStep capOf hnd ctx (runActions capOf hnd ctx ⟨[], [], false⟩ u₁).1 A).1
        u₂).1 := by
    rw [hu]
    rw [congrArg Prod.fst (runActions_append capOf hnd ctx u₁ (A :: u₂) ⟨[], [], false⟩)]
    simp only [runActions]
  -- abbreviations
  set st₁ := (runActions capOf hnd ctx ⟨[], [], false⟩ u₁).1 with hst₁
  set stA := (runStep capOf hnd ctx st₁ A).1 with hstA
  -- the final statuses give A's own step status = completed
  have hfinal : (runSkill capOf hnd ctx m).1 =
      (runActions capOf hnd ctx (runActions capOf hnd ctx ⟨[], [], false⟩ u).1 (B :: v)).1 := by
    rw [runSkill, huv]
    rw [congrArg Prod.fst (runActions_append capOf hnd ctx u (B :: v) ⟨[], [], false⟩)]
  have hBv_ids : ∀ b ∈ B :: v, b.id ≠ A.id := fun b hb =>
    hwids b (List.mem_append.mpr (Or.inr hb))
  have hu₂_ids : ∀ b ∈ u₂, b.id ≠ A.id := fun b hb =>
    hwids b (List.mem_append.mpr (Or.inl hb))
  have hcompA : mapFind stA.statuses A.id = some ActionStatus.completed := by
    have h1 : mapFind (runSkill capOf hnd ctx m).1.statuses A.id =
        mapFind (runActions capOf hnd ctx ⟨[], [], false⟩ u).1.statuses A.id := by
      rw [hfinal]
      exact runActions_statuses_other capOf hnd ctx (B :: v) _ A.id hBv_ids
    have h2 : mapFind (runActions capOf hnd ctx ⟨[], [], false⟩ u).1.statuses A.id =
        mapFind stA.statuses A.id := by
      rw [hu_state]
      exact runActions_statuses_other capOf hnd ctx u₂ stA A.id hu₂_ids
    rw [← h2, ← h1]
    exact hcomp
  have hstatus : (runStep capOf hnd ctx st₁ A).2.status = ActionStatus.completed := by
    have := runStep_statuses_self capOf hnd ctx st₁ A
    rw [hcompA] at this
    exact (Option.some.inj this).symm
  obtain ⟨-, hvarsA⟩ := runStep_completed capOf hnd ctx st₁ A hstatus
  have hAx : mapFind stA.vars x = some (hnd A.id).data := by
    rw [hstA, hvarsA]
    exact mapFind_bindOutput_self st₁ A (hnd A.id) x hout
  have hu₂_out : ∀ b ∈ u₂, b.outputTo ≠ some x := by
    intro b hb hbo
    have hbmem : b ∈ m.actions := hord_sub b (by
      rw [hshape]
      exact List.mem_append.mpr (Or.inr (List.mem_cons_of_mem _
        (List.mem_append.mpr (Or.inl hb)))))
    exact hu₂_ids b hb (huniq b hbmem hbo)
  rw [hu_state]
  rw [runActions_vars_other capOf hnd ctx u₂ stA x hu₂_out]
  exact hAx

/-- C6 witness: in the demo manifest, `add-to-workflow` (which depends on
`create-contact`) is scheduled after `create-contact` and observes
`variables.contact` bound to exactly the data the handler produced. -/
theorem run_outputTo_dataflow_witness :
    ∃ l₁ l₂ : List ActionSpec,
      (topoOrder demoManifest.actions).1 = l₁ ++ demoActionB :: l₂ ∧
      demoActionA ∈ l₁ ∧
      mapFind ((runStep demoCapOf demoHandler demoCtx
          (runActions demoCapOf demoHandler demoCtx ⟨[], [], false⟩ l₁).1
          demoActionB).2.varsBefore) "contact" =
        some (demoHandler demoActionA.id).data :=
  run_outputTo_dataflow demoCapOf demoHandler demoCtx demoManifest demoActionA
    demoActionB "contact" (by decide) (by decide) (by decide) (by decide)
    (by decide) (by decide) (by decide) (by decide)

/-- C3: a manifest whose `dependsOn` graph contains a cycle gets a
`CyclicDependency` error (naming at least the cycle's ids) among the
accumulated validation errors and is never executed; and every `dependsOn`
entry that references a non-existent action id yields an
`UnknownDependency` error. -/
theorem validate_cycle_rejected (m : SkillManifest) (capOf : ActionSpec → String)
    (hnd : String → ActionResult) (ctx : StaticCtx)
    (hnodup : (actionIds m.actions).Nodup) :
    (∀ c, isDepCycle m.actions c = true →
      (∃ names, ValidationError.cyclicDependency names ∈ validate m ∧
        ∀ i ∈ c, i ∈ names) ∧
      ∀ r, executeSkill capOf hnd ctx m ≠ .ok r) ∧
    (∀ a ∈ m.actions, ∀ d ∈ a.dependsOn, d ∉ actionIds m.actions →
      ValidationError.unknownDependency a.id d ∈ validate m) := by
  constructor
  · intro c hcyc
    obtain ⟨hne, hnames⟩ := topoOrder_cycle_stuck m.actions c hnodup hcyc
    have hmem : ValidationError.cyclicDependency (actionIds (topoOrder m.actions).2)
        ∈ validate m := by
      rw [validate]
      refine List.mem_append.mpr (Or.inr ?_)
      rw [if_neg (by simpa [List.isEmpty_iff] using hne)]
      exact List.mem_singleton.mpr rfl
    refine ⟨⟨actionIds (topoOrder m.actions).2, hmem, hnames⟩, ?_⟩
    intro r hok
    rw [executeSkill] at hok
    by_cases hval : validate m = []
    · rw [hval] at hmem
      exact List.not_mem_nil _ hmem
    · rw [if_neg hval] at hok
      exact Except.noConfusion hok
  · intro a ha d hd hdne
    rw [validate]
    refine List.mem_append.mpr (Or.inl (List.mem_append.mpr (Or.inr ?_)))
    refine List.mem_flatMap.mpr ⟨a, ha, ?_⟩
    refine List.mem_filterMap.mpr ⟨d, hd, ?_⟩
    rw [if_neg (by simpa [List.contains_eq_any_beq, List.any_eq_true] using hdne)]

/-- C3 witness: the two-action manifest `a ↔ b` is reported cyclic (the error
names both ids) and is never executed. -/
theorem validate_cycle_rejected_witness :
    (∃ names, ValidationError.cyclicDependency names ∈ validate cyclicManifest ∧
      ∀ i ∈ ["a", "b"], i ∈ names) ∧
    ∀ r, executeSkill demoCapOf demoHandler demoCtx cyclicManifest ≠ .ok r :=
  (validate_cycle_rejected cyclicManifest demoCapOf demoHandler demoCtx
    (by decide)).1 ["a", "b"] (by decide)

/-- C2 witness: a store with a non-reversible entry `log-1` and a reversible,
already-reverted entry `log-2`: reverting `log-1` answers `NotReversible`
(store untouched) and reverting `log-2` answers `AlreadyReverted`. -/
theorem revertLog_spec_witness :
    revertLog (fun _ => true) 7 [("log-1", demoIrreversibleEntry)] "log-1" =
      (.notReversible, [("log-1", demoIrreversibleEntry)]) ∧
    revertLog (fun _ => true) 7 [("log-2", demoRevertedEntry)] "log-2" =
      (.alreadyReverted, [("log-2", demoRevertedEntry)]) :=
  ⟨(revertLog_spec (fun _ => true) 7 [("log-1", demoIrreversibleEntry)] "log-1"
      demoIrreversibleEntry rfl).1 rfl,
   (revertLog_spec (fun _ => true) 7 [("log-2", demoRevertedEntry)] "log-2"
      demoRevertedEntry rfl).2.1 rfl rfl⟩

end RocketDash
